import Mathlib

/-!
Verification of the aggregation core of the Project-Music-Data repository
(`src/common.js`): the function `processUserData`, which scans a listener's
play-event list once and derives the insight rows shown in the UI, and the
helper `getGenres`.

The JavaScript is embedded shallowly:

* `new Date(timestamp)` is a platform builtin; the code observes it only
  through `getDay()`, `getHours()` and `toDateString()`.  A timestamp is
  therefore modelled as the observable outcome of parsing: `JSDate.valid
  day hour dateString`, or `JSDate.invalid` for a string that cannot be
  parsed (JS yields an Invalid Date whose `getDay()`/`getHours()` are `NaN`
  — every `===`/`>=`/`<` comparison with `NaN` is false — and whose
  `toDateString()` is the constant string `"Invalid Date"`).
* JS objects used as dictionaries enumerate their (non-index) string keys
  in insertion order; they are modelled as association lists in which an
  update keeps the position of an existing key and appends a new key.
* `Array.prototype.sort` is stable (ES2019) with a consistent comparator,
  hence modelled by the stable `List.insertionSort`.
* `getListenEvents` and `getSong` live in `data.js`, an external
  collaborator of the aggregation module; they are parameters.
* The aggregation reports its outcome through `updateTable()`: with no
  argument for the "no data" state and with the results list otherwise.
  This is modelled as an `Option (List Insight)` result, `none` being the
  absence signal.
-/

namespace MusicData

/-- Outcome of `new Date(timestamp)` as observed by `common.js`:
a valid date exposes its local weekday (`getDay()`, 0 = Sunday … 5 =
Friday, 6 = Saturday), local hour (`getHours()`) and calendar-day string
(`toDateString()`); an unparseable timestamp gives an Invalid Date. -/
inductive JSDate where
  | valid (day : Nat) (hour : Nat) (dateString : String)
  | invalid
deriving DecidableEq, Repr

/-- JS `date.toDateString()`: the calendar-day string of a valid date,
and the constant `"Invalid Date"` for an invalid one. -/
def JSDate.toDateString : JSDate → String
  | .valid _ _ ds => ds
  | .invalid => "Invalid Date"

/-- Song metadata returned by `getSong` (`data.js`). -/
structure Song where
  artist : String
  title : String
  genre : String
  duration_seconds : Nat
deriving DecidableEq, Repr

/-- One listen event as returned by `getListenEvents`: a song id and a
timestamp (already in parsed form, see `JSDate`). -/
structure ListenEvent where
  song_id : Nat
  timestamp : JSDate
deriving DecidableEq, Repr

/-- One output row: `{ question, answer }`. -/
structure Insight where
  question : String
  answer : String
deriving DecidableEq, Repr

/-- SongKey of `common.js` line 61: the template literal
`artist - title`. -/
def songKey (s : Song) : String := s.artist ++ " - " ++ s.title

/-- SongKey of an event under a song lookup. -/
def songKeyOf (getSong : Nat → Song) (e : ListenEvent) : String :=
  songKey (getSong e.song_id)

/-- Calendar-day string of an event. -/
def dayOf (e : ListenEvent) : String := e.timestamp.toDateString

/-- Friday-night test of `common.js` line 79:
`(day === 5 && hour >= 17) || (day === 6 && hour < 4)`.
For an Invalid Date both `day` and `hour` are `NaN`, so every comparison
is false and the whole condition is false. -/
def isFridayNight : JSDate → Bool
  | .valid day hour _ => (day == 5 && 17 ≤ hour) || (day == 6 && hour < 4)
  | .invalid => false

/-- A JS object used as a string-keyed numeric accumulator, as an
association list in key-insertion order. -/
abbrev ObjMap := List (String × Nat)

/-- JS property read `m[k]`: the value stored at `k`, or `undefined`
(here `none`) when the key is absent. -/
def vOf (m : ObjMap) (k : String) : Option Nat :=
  (m.find? (fun p => p.1 == k)).map (fun p => p.2)

/-- Numeric value of a key that is known to be present (`m[k]` as a
number); absent keys default to 0 only for stating properties. -/
def vN (m : ObjMap) (k : String) : Nat := (vOf m k).getD 0

/-- JS accumulator update `m[k] = (m[k] || 0) + v`: an existing key keeps
its position, a new key is appended (insertion order). -/
def bumpAdd : ObjMap → String → Nat → ObjMap
  | [], k, v => [(k, v)]
  | p :: rest, k, v =>
      if p.1 = k then (p.1, p.2 + v) :: rest else p :: bumpAdd rest k v

/-- Sum of all stored values of an accumulator. -/
def sumVals (m : ObjMap) : Nat := (m.map (fun p => p.2)).sum

/-- JS `Set.prototype.add`: a set as its insertion-ordered list of
distinct elements. -/
def addToSet (s : List String) (x : String) : List String :=
  if x ∈ s then s else s ++ [x]

/-- `common.js` lines 86–87:
`songDays[k] = songDays[k] || new Set(); songDays[k].add(d)`. -/
def addDay : List (String × List String) → String → String → List (String × List String)
  | [], k, d => [(k, addToSet [] d)]
  | p :: rest, k, d =>
      if p.1 = k then (p.1, addToSet p.2 d) :: rest else p :: addDay rest k d

/-- Lookup in the `songDays` object. -/
def lookupSet (sd : List (String × List String)) (k : String) : Option (List String) :=
  (sd.find? (fun p => p.1 == k)).map (fun p => p.2)

/-- JS `songDays[k].size` for a present key `k`. -/
def setSizeOf (sd : List (String × List String)) (k : String) : Nat :=
  ((lookupSet sd k).getD []).length

/-- `common.js` lines 54–56: `new Set(events.map(x => new
Date(x.timestamp).toDateString())).size` — the number of distinct
calendar-day strings over the whole event list. -/
def totalDays (events : List ListenEvent) : Nat :=
  ((events.map dayOf).foldl addToSet []).length

/-- Streak-tracking portion of the per-event state
(`maxStreak`, `currentStreak`, `streakSongs`, `prevSong`). -/
structure StreakSt where
  maxStreak : Nat
  currentStreak : Nat
  streakSongs : List String
  prevSong : String
deriving DecidableEq, Repr

/-- Initial streak state of `common.js` lines 48–51. -/
def initStreak : StreakSt := ⟨0, 1, [], ""⟩

/-- Streak update of `common.js` lines 89–101.  (In the branch where the
key equals `prevSong` the source leaves `prevSong` unchanged, which is
the same as storing the key again.) -/
def streakStep (t : StreakSt) (k : String) : StreakSt :=
  let cur := if k = t.prevSong then t.currentStreak + 1 else 1
  if t.maxStreak < cur then ⟨cur, cur, [k], k⟩
  else if cur = t.maxStreak then
    ⟨t.maxStreak, cur, t.streakSongs ++ [k], k⟩
  else ⟨t.maxStreak, cur, t.streakSongs, k⟩

/-- Full accumulator state of the single pass of `processUserData`. -/
structure AggState where
  songCount : ObjMap
  songTime : ObjMap
  artistCount : ObjMap
  artistTime : ObjMap
  genreCount : ObjMap
  fridayNightSongs : ObjMap
  fridayNightTime : ObjMap
  songDays : List (String × List String)
  streak : StreakSt
deriving DecidableEq, Repr

/-- Initial accumulator state (`common.js` lines 37–51). -/
def initState : AggState := ⟨[], [], [], [], [], [], [], [], initStreak⟩

/-- Body of the event loop of `processUserData` (`common.js` lines
59–102) for one event. -/
def stepEvent (getSong : Nat → Song) (s : AggState) (event : ListenEvent) : AggState :=
  let song := getSong event.song_id
  let key := songKey song
  let friday := isFridayNight event.timestamp
  { songCount := bumpAdd s.songCount key 1
    songTime := bumpAdd s.songTime key song.duration_seconds
    artistCount := bumpAdd s.artistCount song.artist 1
    artistTime := bumpAdd s.artistTime song.artist song.duration_seconds
    genreCount := bumpAdd s.genreCount song.genre 1
    fridayNightSongs :=
      if friday then bumpAdd s.fridayNightSongs key 1 else s.fridayNightSongs
    fridayNightTime :=
      if friday then bumpAdd s.fridayNightTime key song.duration_seconds
      else s.fridayNightTime
    songDays := addDay s.songDays key event.timestamp.toDateString
    streak := streakStep s.streak key }

/-- Accumulator state after the whole pass over the event list. -/
def aggState (getSong : Nat → Song) (events : List ListenEvent) : AggState :=
  events.foldl (stepEvent getSong) initState

/-- JS `a >= b` on two property reads: false whenever either side is
`undefined` (a `NaN` comparison). -/
def jsGe : Option Nat → Option Nat → Bool
  | some x, some y => y ≤ x
  | _, _ => false

/-- Max-reduction of `common.js` lines 106–121 and 133–140:
`Object.keys(m).reduce((a, b) => m[a] >= m[b] ? a : b, "")`. -/
def jsMaxKey (m : ObjMap) : String :=
  (m.map (fun p => p.1)).foldl
    (fun a b => if jsGe (vOf m a) (vOf m b) then a else b) ""

/-- Comparator of `common.js` line 123 as a `le` relation: the comparator
`genreCount[b] - genreCount[a]` puts `a` no later than `b` exactly when
`genreCount[b] <= genreCount[a]`. -/
def genreOrd (m : ObjMap) (a b : String) : Prop := vN m b ≤ vN m a

instance (m : ObjMap) : DecidableRel (genreOrd m) :=
  fun a b => Nat.decLe (vN m b) (vN m a)

/-- `common.js` lines 122–124:
`Object.keys(genreCount).sort((a,b) => genreCount[b] - genreCount[a]).slice(0, 3)`.
`Array.prototype.sort` is a stable sort under the comparator order, and
a stable sort under a total preorder is unique, so it is modelled by the
stable `List.insertionSort`. -/
def topGenres (m : ObjMap) : List String :=
  (List.insertionSort (genreOrd m) (m.map (fun p => p.1))).take 3

/-- `common.js` lines 127–130 before the final `join`: the SongKeys whose
day-set size equals `totalDays`. -/
def everydayList (getSong : Nat → Song) (events : List ListenEvent) : List String :=
  ((aggState getSong events).songDays.map (fun p => p.1)).filter
    (fun k => setSizeOf (aggState getSong events).songDays k == totalDays events)

/-- `getGenres` of `common.js` lines 180–185. -/
def getGenres (topGenres : List String) : Insight :=
  let singularGender := if topGenres.length = 1 then "Genre" else "Genres"
  let label := "Top " ++ toString topGenres.length ++ " " ++ singularGender
  ⟨label, String.intercalate ", " topGenres⟩

/-- Row gated by the truthiness of a string statistic (`v && { ... }`
followed by `filter(Boolean)`): present unless the string is empty. -/
def strRow (v : String) (q : String) : Option Insight :=
  if v = "" then none else some ⟨q, v⟩

/-- Results assembly of `common.js` lines 143–174. The Friday rows and
the "Every day songs" row vanish when their string is empty; the streak
row is gated by `streakSongs.length` and the genre row by the array
`topGenres`, which is always truthy. -/
def buildResults (getSong : Nat → Song) (events : List ListenEvent) : List Insight :=
  let st := aggState getSong events
  let mostPlayedSong := jsMaxKey st.songCount
  let mostPlayedSongByTime := jsMaxKey st.songTime
  let mostPlayedArtist := jsMaxKey st.artistCount
  let mostPlayedArtistByTime := jsMaxKey st.artistTime
  let topFridaySong := jsMaxKey st.fridayNightSongs
  let topFridaySongByTime := jsMaxKey st.fridayNightTime
  let everydaySongs := String.intercalate ", " (everydayList getSong events)
  List.filterMap id
    [ strRow mostPlayedSong "Most listened song (count)"
    , strRow mostPlayedSongByTime "Most listened song (time)"
    , strRow mostPlayedArtist "Most listened artist (count)"
    , strRow mostPlayedArtistByTime "Most listened artist (time)"
    , strRow topFridaySong "Friday night song (count)"
    , strRow topFridaySongByTime "Friday night song (time)"
    , (if st.streak.streakSongs.length = 0 then none
       else some ⟨"Longest streak song",
         String.intercalate ", " st.streak.streakSongs
           ++ " (length: " ++ toString st.streak.maxStreak ++ ")"⟩)
    , strRow everydaySongs "Every day songs"
    , some (getGenres (topGenres st.genreCount)) ]

/-- `processUserData` of `common.js`: on a missing or empty event list it
reports the absence state (`updateTable()` with no argument, modelled as
`none`) and stops; otherwise it runs the pass and reports the assembled
insight rows. -/
def processUserData (getSong : Nat → Song) (events : Option (List ListenEvent)) :
    Option (List Insight) :=
  match events with
  | none => none
  | some es => if es.length = 0 then none else some (buildResults getSong es)

/-! ### Reference (specification-side) definitions -/

/-- One step of run-length encoding: extend the current (most recent)
run when the key repeats, otherwise open a new run of length 1. -/
def runsStep (bs : List (String × Nat)) (k : String) : List (String × Nat) :=
  match bs with
  | [] => [(k, 1)]
  | (k', n) :: rest =>
      if k = k' then (k', n + 1) :: rest else (k, 1) :: (k', n) :: rest

/-- Run-length encoding of a key sequence: one `(key, length)` pair per
maximal run of consecutive equal keys, most recent run first. -/
def runsRev (l : List String) : List (String × Nat) := l.foldl runsStep []

/-- Largest stored length of a run-length encoding. -/
def maxSnd (bs : List (String × Nat)) : Nat := (bs.map (fun p => p.2)).foldr max 0

/-- Length of the longest maximal run of consecutive equal keys. -/
def maxRun (l : List String) : Nat := maxSnd (runsRev l)

/-- Loop skeleton of the JS max-reduction once the seed has been replaced
by the first key: keep the accumulator unless the next key has a strictly
larger value. -/
def foldMax (v : String → Nat) (a : String) (ks : List String) : String :=
  ks.foldl (fun x y => if v y ≤ v x then x else y) a

/-- Invariant tying the streak state after a prefix of the pass to the
run-length encoding of the SongKeys processed so far: `prevSong` and
`currentStreak` describe the most recent run, `maxStreak` is the largest
run length, and `streakSongs` holds exactly the keys owning a run of that
length. -/
def StreakInv : StreakSt → List (String × Nat) → Prop
  | t, [] => t = initStreak
  | t, (k', n) :: rest =>
      k' ≠ "" ∧ t.prevSong = k' ∧ t.currentStreak = n ∧
      (∀ p ∈ (k', n) :: rest, 1 ≤ p.2) ∧
      t.maxStreak = maxSnd ((k', n) :: rest) ∧
      (∀ x, x ∈ t.streakSongs ↔ (x, maxSnd ((k', n) :: rest)) ∈ (k', n) :: rest)

/-! ### Concrete demonstration inputs -/

/-- Demonstration song A (SongKey `"A - X"`). -/
def songA : Song := ⟨"A", "X", "rock", 100⟩

/-- Demonstration song B (SongKey `"B - Y"`). -/
def songB : Song := ⟨"B", "Y", "pop", 200⟩

/-- Demonstration song lookup: id 0 is `songA`, everything else `songB`. -/
def demoSongs : Nat → Song
  | 0 => songA
  | _ => songB

/-- A weekday-morning timestamp (Monday, 10:00). -/
def mon : JSDate := .valid 1 10 "Mon Jan 01 2024"

/-- An event playing song A on Monday morning. -/
def evA : ListenEvent := ⟨0, mon⟩

/-- An event playing song B on Monday morning. -/
def evB : ListenEvent := ⟨1, mon⟩

/-- An event for song A whose timestamp failed to parse. -/
def evBad : ListenEvent := ⟨0, .invalid⟩

/-! ### Projection lemmas for the single pass -/

@[simp]
theorem stepEvent_songCount (g : Nat → Song) (s : AggState) (e : ListenEvent) :
    (stepEvent g s e).songCount = bumpAdd s.songCount (songKeyOf g e) 1 := rfl

@[simp]
theorem stepEvent_songTime (g : Nat → Song) (s : AggState) (e : ListenEvent) :
    (stepEvent g s e).songTime =
      bumpAdd s.songTime (songKeyOf g e) (g e.song_id).duration_seconds := rfl

@[simp]
theorem stepEvent_artistCount (g : Nat → Song) (s : AggState) (e : ListenEvent) :
    (stepEvent g s e).artistCount = bumpAdd s.artistCount (g e.song_id).artist 1 := rfl

@[simp]
theorem stepEvent_artistTime (g : Nat → Song) (s : AggState) (e : ListenEvent) :
    (stepEvent g s e).artistTime =
      bumpAdd s.artistTime (g e.song_id).artist (g e.song_id).duration_seconds := rfl

@[simp]
theorem stepEvent_genreCount (g : Nat → Song) (s : AggState) (e : ListenEvent) :
    (stepEvent g s e).genreCount = bumpAdd s.genreCount (g e.song_id).genre 1 := rfl

@[simp]
theorem stepEvent_fridayNightSongs (g : Nat → Song) (s : AggState) (e : ListenEvent) :
    (stepEvent g s e).fridayNightSongs =
      (if isFridayNight e.timestamp
       then bumpAdd s.fridayNightSongs (songKeyOf g e) 1
       else s.fridayNightSongs) := rfl

@[simp]
theorem stepEvent_fridayNightTime (g : Nat → Song) (s : AggState) (e : ListenEvent) :
    (stepEvent g s e).fridayNightTime =
      (if isFridayNight e.timestamp
       then bumpAdd s.fridayNightTime (songKeyOf g e) (g e.song_id).duration_seconds
       else s.fridayNightTime) := rfl

@[simp]
theorem stepEvent_songDays (g : Nat → Song) (s : AggState) (e : ListenEvent) :
    (stepEvent g s e).songDays = addDay s.songDays (songKeyOf g e) (dayOf e) := rfl

@[simp]
theorem stepEvent_streak (g : Nat → Song) (s : AggState) (e : ListenEvent) :
    (stepEvent g s e).streak = streakStep s.streak (songKeyOf g e) := rfl

theorem foldl_stepEvent_songCount (g : Nat → Song) (es : List ListenEvent) (s : AggState) :
    (es.foldl (stepEvent g) s).songCount =
      es.foldl (fun m e => bumpAdd m (songKeyOf g e) 1) s.songCount := by
  induction es generalizing s with
  | nil => rfl
  | cons e es ih => simp [ih]

theorem foldl_stepEvent_artistCount (g : Nat → Song) (es : List ListenEvent) (s : AggState) :
    (es.foldl (stepEvent g) s).artistCount =
      es.foldl (fun m e => bumpAdd m (g e.song_id).artist 1) s.artistCount := by
  induction es generalizing s with
  | nil => rfl
  | cons e es ih => simp [ih]

theorem foldl_stepEvent_artistTime (g : Nat → Song) (es : List ListenEvent) (s : AggState) :
    (es.foldl (stepEvent g) s).artistTime =
      es.foldl (fun m e => bumpAdd m (g e.song_id).artist (g e.song_id).duration_seconds)
        s.artistTime := by
  induction es generalizing s with
  | nil => rfl
  | cons e es ih => simp [ih]

theorem foldl_stepEvent_songDays (g : Nat → Song) (es : List ListenEvent) (s : AggState) :
    (es.foldl (stepEvent g) s).songDays =
      es.foldl (fun sd e => addDay sd (songKeyOf g e) (dayOf e)) s.songDays := by
  induction es generalizing s with
  | nil => rfl
  | cons e es ih => simp [ih]

theorem foldl_stepEvent_streak (g : Nat → Song) (es : List ListenEvent) (s : AggState) :
    (es.foldl (stepEvent g) s).streak =
      es.foldl (fun t e => streakStep t (songKeyOf g e)) s.streak := by
  induction es generalizing s with
  | nil => rfl
  | cons e es ih => simp [ih]

/-! ### Arithmetic of the accumulators -/

theorem sumVals_bumpAdd (m : ObjMap) (k : String) (v : Nat) :
    sumVals (bumpAdd m k v) = sumVals m + v := by
  induction m with
  | nil => simp [bumpAdd, sumVals]
  | cons p rest ih =>
      by_cases h : p.1 = k
      · simp [bumpAdd, h, sumVals]; omega
      · simp [bumpAdd, h, sumVals] at ih ⊢; omega

theorem bumpAdd_ne_nil (m : ObjMap) (k : String) (v : Nat) : bumpAdd m k v ≠ [] := by
  cases m with
  | nil => simp [bumpAdd]
  | cons p rest =>
      by_cases h : p.1 = k <;> simp [bumpAdd, h]

theorem sumVals_count_fold (es : List ListenEvent) (m : ObjMap)
    (key : ListenEvent → String) :
    sumVals (es.foldl (fun m e => bumpAdd m (key e) 1) m) = sumVals m + es.length := by
  induction es generalizing m with
  | nil => simp
  | cons e es ih => simp [ih, sumVals_bumpAdd]; omega

/-! ### Claim C2 — empty or absent event list short-circuits to the
absence signal -/

/-- C2: with an absent or empty event list, `processUserData` returns the
NoData absence signal (`none`) without producing an Insight list, and it
returns `none` in no other case, so the absence signal is distinct from
an empty-but-successful Insight list (`some []`). -/
theorem claim_C2 (getSong : Nat → Song) :
    processUserData getSong none = none ∧
    (∀ es : List ListenEvent, processUserData getSong (some es) = none ↔ es = []) ∧
    (none : Option (List Insight)) ≠ some [] := by
  refine ⟨rfl, fun es => ?_, by simp⟩
  cases es <;> simp [processUserData]

/-- Witness for C2 at a concrete lookup: the absent and the empty event
list both give the absence signal. -/
theorem claim_C2_witness :
    processUserData demoSongs none = none ∧
    (processUserData demoSongs (some []) = none ↔ ([] : List ListenEvent) = []) :=
  ⟨(claim_C2 demoSongs).1, (claim_C2 demoSongs).2.1 []⟩

/-! ### Claim C9 — concrete streak examples -/

/-- C9: on the SongKey sequence `[A, A, A, B, A, A]` the pass reports
longest streak 3, held by song A alone, and on `[A, A, B, B]` it reports
longest streak 2, tied between A and B. -/
theorem claim_C9 :
    (aggState demoSongs [evA, evA, evA, evB, evA, evA]).streak.maxStreak = 3 ∧
    (aggState demoSongs [evA, evA, evA, evB, evA, evA]).streak.streakSongs = ["A - X"] ∧
    (aggState demoSongs [evA, evA, evB, evB]).streak.maxStreak = 2 ∧
    (aggState demoSongs [evA, evA, evB, evB]).streak.streakSongs = ["A - X", "B - Y"] := by
  refine ⟨?_, ?_, ?_, ?_⟩ <;> rfl

/-! ### Streak lemmas (claim C1) -/

theorem songKey_ne_empty (s : Song) : songKey s ≠ "" := by
  rw [songKey]
  intro h
  have hlen := congrArg String.length h
  rw [String.length_append, String.length_append] at hlen
  have h3 : (" - " : String).length = 3 := rfl
  have h0 : ("" : String).length = 0 := rfl
  omega

theorem maxSnd_nil : maxSnd [] = 0 := rfl

theorem maxSnd_cons (p : String × Nat) (bs : List (String × Nat)) :
    maxSnd (p :: bs) = max p.2 (maxSnd bs) := rfl

theorem le_maxSnd {bs : List (String × Nat)} {p : String × Nat} (h : p ∈ bs) :
    p.2 ≤ maxSnd bs := by
  induction bs with
  | nil => simp at h
  | cons q rest ih =>
      rw [maxSnd_cons]
      rcases List.mem_cons.mp h with h1 | h1
      · rw [h1]; exact le_max_left _ _
      · exact le_trans (ih h1) (le_max_right _ _)

theorem streakStep_of_lt {t : StreakSt} {k : String} {cur : Nat}
    (hcur : (if k = t.prevSong then t.currentStreak + 1 else 1) = cur)
    (h : t.maxStreak < cur) : streakStep t k = ⟨cur, cur, [k], k⟩ := by
  simp only [streakStep, hcur]
  rw [if_pos h]

theorem streakStep_of_eq {t : StreakSt} {k : String} {cur : Nat}
    (hcur : (if k = t.prevSong then t.currentStreak + 1 else 1) = cur)
    (h1 : ¬ t.maxStreak < cur) (h2 : cur = t.maxStreak) :
    streakStep t k = ⟨t.maxStreak, cur, t.streakSongs ++ [k], k⟩ := by
  simp only [streakStep, hcur]
  rw [if_neg h1, if_pos h2]

theorem streakStep_of_rest {t : StreakSt} {k : String} {cur : Nat}
    (hcur : (if k = t.prevSong then t.currentStreak + 1 else 1) = cur)
    (h1 : ¬ t.maxStreak < cur) (h2 : cur ≠ t.maxStreak) :
    streakStep t k = ⟨t.maxStreak, cur, t.streakSongs, k⟩ := by
  simp only [streakStep, hcur]
  rw [if_neg h1, if_neg h2]

theorem streakInv_step {t : StreakSt} {bs : List (String × Nat)} (k : String)
    (hk : k ≠ "") (hinv : StreakInv t bs) :
    StreakInv (streakStep t k) (runsStep bs k) := by
  cases bs with
  | nil =>
      rw [StreakInv] at hinv
      subst hinv
      have hcur : (if k = initStreak.prevSong then initStreak.currentStreak + 1 else 1)
          = 1 := by rw [if_neg]; exact hk
      rw [streakStep_of_lt hcur (by decide), runsStep, StreakInv]
      have hms : maxSnd [(k, 1)] = 1 := by rw [maxSnd_cons, maxSnd_nil]; omega
      refine ⟨hk, rfl, rfl, by simp, by rw [hms], fun x => ?_⟩
      rw [hms]
      simp [Prod.ext_iff]
  | cons hd rest =>
      obtain ⟨k', n⟩ := hd
      obtain ⟨hk', hprev, hcur, hpos, hmax, hmem⟩ := hinv
      have hn1 : 1 ≤ n := hpos (k', n) (by simp)
      have hmax' : maxSnd ((k', n) :: rest) = max n (maxSnd rest) := rfl
      have hnM : n ≤ t.maxStreak := by omega
      have hrestM : maxSnd rest ≤ t.maxStreak := by omega
      rw [← hmax] at hmem
      by_cases hkk : k = k'
      · have hc : (if k = t.prevSong then t.currentStreak + 1 else 1) = n + 1 := by
          rw [hprev, if_pos hkk, hcur]
        rw [runsStep, if_pos hkk]
        have hM1' : maxSnd ((k', n + 1) :: rest) = max (n + 1) (maxSnd rest) := rfl
        by_cases h1 : t.maxStreak < n + 1
        · -- the run strictly exceeds every previous one: leaderboard resets
          rw [streakStep_of_lt hc h1, StreakInv]
          have hM1 : maxSnd ((k', n + 1) :: rest) = n + 1 := by omega
          refine ⟨hk', hkk, rfl, ?_, by rw [hM1], ?_⟩
          · intro p hp
            rcases List.mem_cons.mp hp with h | h
            · rw [h]; show (1 : Nat) ≤ n + 1; omega
            · exact hpos p (List.mem_cons_of_mem _ h)
          · intro x
            rw [hM1]
            constructor
            · intro hx
              have hxk : x = k := List.mem_singleton.mp hx
              subst hxk
              exact List.mem_cons.mpr (Or.inl (by rw [hkk]))
            · intro hx
              rcases List.mem_cons.mp hx with h | h
              · have hx1 : x = k' := congrArg Prod.fst h
                rw [List.mem_singleton, hx1, hkk]
              · exfalso
                have h2' : n + 1 ≤ maxSnd rest := le_maxSnd h
                omega
        · by_cases h2 : n + 1 = t.maxStreak
          · -- the run ties the maximum: the song is appended
            rw [streakStep_of_eq hc h1 h2, StreakInv]
            have hM1 : maxSnd ((k', n + 1) :: rest) = t.maxStreak := by omega
            refine ⟨hk', hkk, rfl, ?_, by rw [hM1], ?_⟩
            · intro p hp
              rcases List.mem_cons.mp hp with h | h
              · rw [h]; show (1 : Nat) ≤ n + 1; omega
              · exact hpos p (List.mem_cons_of_mem _ h)
            · intro x
              rw [hM1, List.mem_append, List.mem_singleton]
              constructor
              · rintro (hx | hx)
                · rcases List.mem_cons.mp ((hmem x).mp hx) with h | h
                  · exfalso
                    have hsnd : t.maxStreak = n := congrArg Prod.snd h
                    omega
                  · exact List.mem_cons_of_mem _ h
                · subst hx
                  refine List.mem_cons.mpr (Or.inl ?_)
                  rw [hkk, ← h2]
              · intro hx
                rcases List.mem_cons.mp hx with h | h
                · have hx1 : x = k' := congrArg Prod.fst h
                  right
                  rw [hx1, hkk]
                · exact Or.inl ((hmem x).mpr (List.mem_cons_of_mem _ h))
          · -- the run stays below the maximum: leaderboard unchanged
            rw [streakStep_of_rest hc h1 h2, StreakInv]
            have hM1 : maxSnd ((k', n + 1) :: rest) = t.maxStreak := by omega
            refine ⟨hk', hkk, rfl, ?_, by rw [hM1], ?_⟩
            · intro p hp
              rcases List.mem_cons.mp hp with h | h
              · rw [h]; show (1 : Nat) ≤ n + 1; omega
              · exact hpos p (List.mem_cons_of_mem _ h)
            · intro x
              rw [hM1]
              constructor
              · intro hx
                rcases List.mem_cons.mp ((hmem x).mp hx) with h | h
                · exfalso
                  have hsnd : t.maxStreak = n := congrArg Prod.snd h
                  omega
                · exact List.mem_cons_of_mem _ h
              · intro hx
                rcases List.mem_cons.mp hx with h | h
                · exfalso
                  have hsnd : t.maxStreak = n + 1 := congrArg Prod.snd h
                  omega
                · exact (hmem x).mpr (List.mem_cons_of_mem _ h)
      · -- a new run of length 1 opens
        have hc : (if k = t.prevSong then t.currentStreak + 1 else 1) = 1 := by
          rw [hprev, if_neg hkk]
        rw [runsStep, if_neg hkk]
        have h1 : ¬ t.maxStreak < 1 := by omega
        have hMcons' : maxSnd ((k, 1) :: (k', n) :: rest)
            = max 1 (maxSnd ((k', n) :: rest)) := rfl
        have hMcons : maxSnd ((k, 1) :: (k', n) :: rest) = t.maxStreak := by omega
        by_cases h2 : (1 : Nat) = t.maxStreak
        · rw [streakStep_of_eq hc h1 h2, StreakInv]
          refine ⟨hk, rfl, rfl, ?_, by rw [hMcons], ?_⟩
          · intro p hp
            rcases List.mem_cons.mp hp with h | h
            · rw [h]
            · exact hpos p h
          · intro x
            rw [hMcons, List.mem_append, List.mem_singleton]
            constructor
            · rintro (hx | hx)
              · exact List.mem_cons_of_mem _ ((hmem x).mp hx)
              · subst hx
                refine List.mem_cons.mpr (Or.inl ?_)
                rw [← h2]
            · intro hx
              rcases List.mem_cons.mp hx with h | h
              · exact Or.inr (congrArg Prod.fst h)
              · exact Or.inl ((hmem x).mpr h)
        · rw [streakStep_of_rest hc h1 h2, StreakInv]
          refine ⟨hk, rfl, rfl, ?_, by rw [hMcons], ?_⟩
          · intro p hp
            rcases List.mem_cons.mp hp with h | h
            · rw [h]
            · exact hpos p h
          · intro x
            rw [hMcons]
            constructor
            · intro hx
              exact List.mem_cons_of_mem _ ((hmem x).mp hx)
            · intro hx
              rcases List.mem_cons.mp hx with h | h
              · exfalso
                have hsnd : t.maxStreak = 1 := congrArg Prod.snd h
                omega
              · exact (hmem x).mpr h

theorem streakInv_fold (l : List String) (hl : ∀ k ∈ l, k ≠ "") :
    ∀ t bs, StreakInv t bs →
      StreakInv (l.foldl streakStep t) (l.foldl runsStep bs) := by
  induction l with
  | nil => intro t bs h; exact h
  | cons k l ih =>
      intro t bs h
      rw [List.foldl_cons, List.foldl_cons]
      exact ih (fun x hx => hl x (List.mem_cons_of_mem k hx)) _ _
        (streakInv_step k (hl k (by simp)) h)

/-! ### Claim C6 — song play counts sum to the number of events -/

/-- C6: after the single pass over a non-empty event list, the per-song
play-count accumulators sum to the number of events. -/
theorem claim_C6 (getSong : Nat → Song) (events : List ListenEvent)
    (hne : events ≠ []) :
    sumVals (aggState getSong events).songCount = events.length := by
  rw [aggState, foldl_stepEvent_songCount, sumVals_count_fold]
  simp [initState, sumVals]

/-- Witness for C6 at the concrete two-event input. -/
theorem claim_C6_witness :
    [evA, evB] ≠ ([] : List ListenEvent) ∧
    sumVals (aggState demoSongs [evA, evB]).songCount = 2 :=
  ⟨by decide, claim_C6 demoSongs [evA, evB] (by decide)⟩

/-! ### Claim C8 — malformed timestamps are not rejected -/

/-- C8 counterexample: a sequence containing an event whose timestamp
could not be parsed still produces a full Insight list — no failure is
propagated, the event is aggregated with `NaN` date reads. -/
theorem claim_C8_cex :
    processUserData demoSongs (some [evBad]) =
      some [⟨"Most listened song (count)", "A - X"⟩,
            ⟨"Most listened song (time)", "A - X"⟩,
            ⟨"Most listened artist (count)", "A"⟩,
            ⟨"Most listened artist (time)", "A"⟩,
            ⟨"Longest streak song", "A - X (length: 1)"⟩,
            ⟨"Every day songs", "A - X"⟩,
            ⟨"Top 1 Genre", "rock"⟩] := by rfl

/-- C8 amended: aggregation never fails on a malformed timestamp — every
non-empty event list yields an Insight list; the malformed event is still
counted (never skipped), its `NaN` weekday/hour make the Friday-night
test false, and its calendar-day string is the constant
`"Invalid Date"`. -/
theorem claim_C8 (getSong : Nat → Song) (events : List ListenEvent)
    (hne : events ≠ []) :
    (∃ l, processUserData getSong (some events) = some l) ∧
    sumVals (aggState getSong events).songCount = events.length ∧
    isFridayNight .invalid = false ∧
    JSDate.toDateString .invalid = "Invalid Date" := by
  refine ⟨⟨buildResults getSong events, ?_⟩, ?_, rfl, rfl⟩
  · simp [processUserData, hne]
  · rw [aggState, foldl_stepEvent_songCount, sumVals_count_fold]
    simp [initState, sumVals]

/-- Witness for C8 at the single malformed-timestamp event. -/
theorem claim_C8_witness :
    [evBad] ≠ ([] : List ListenEvent) ∧
    ((∃ l, processUserData demoSongs (some [evBad]) = some l) ∧
     sumVals (aggState demoSongs [evBad]).songCount = [evBad].length ∧
     isFridayNight .invalid = false ∧
     JSDate.toDateString .invalid = "Invalid Date") :=
  ⟨by decide, claim_C8 demoSongs [evBad] (by decide)⟩

/-! ### Claim C1 — the streak leaderboard -/

/-- C1 counterexample: the streak leaderboard is not a duplicate-free
set.  On the SongKey sequence `[A, B, A]` every event is a maximal run of
length 1, and song A is entered twice. -/
theorem claim_C1_cex :
    (aggState demoSongs [evA, evB, evA]).streak.streakSongs =
      ["A - X", "B - Y", "A - X"] ∧
    ¬ (aggState demoSongs [evA, evB, evA]).streak.streakSongs.Nodup :=
  ⟨rfl, by decide⟩

/-! ### Day-set lemmas (for the everyday-songs statistic) -/

theorem addToSet_toFinset (s : List String) (x : String) :
    (addToSet s x).toFinset = insert x s.toFinset := by
  by_cases h : x ∈ s
  · rw [addToSet, if_pos h]
    exact (Finset.insert_eq_self.mpr (List.mem_toFinset.mpr h)).symm
  · rw [addToSet, if_neg h, List.toFinset_append]
    ext y
    simp [or_comm]

theorem addToSet_nodup {s : List String} (x : String) (h : s.Nodup) :
    (addToSet s x).Nodup := by
  by_cases hx : x ∈ s
  · rw [addToSet, if_pos hx]; exact h
  · rw [addToSet, if_neg hx]
    simp [List.nodup_append, h, hx]

theorem foldl_addToSet_nodup (l : List String) (s : List String) (h : s.Nodup) :
    (l.foldl addToSet s).Nodup := by
  induction l generalizing s with
  | nil => exact h
  | cons x l ih => exact ih _ (addToSet_nodup x h)

theorem foldl_addToSet_toFinset (l : List String) (s : List String) :
    (l.foldl addToSet s).toFinset = s.toFinset ∪ l.toFinset := by
  induction l generalizing s with
  | nil => simp
  | cons x l ih =>
      rw [List.foldl_cons, ih, addToSet_toFinset]
      ext y
      simp
      try tauto

theorem foldl_addToSet_length (l : List String) :
    (l.foldl addToSet []).length = l.toFinset.card := by
  rw [← List.toFinset_card_of_nodup (foldl_addToSet_nodup l [] List.nodup_nil),
    foldl_addToSet_toFinset]
  simp

theorem totalDays_card (events : List ListenEvent) :
    totalDays events = (events.map dayOf).toFinset.card := by
  rw [totalDays, foldl_addToSet_length]

theorem lookupSet_cons (p : String × List String) (rest : List (String × List String))
    (k : String) :
    lookupSet (p :: rest) k = if p.1 = k then some p.2 else lookupSet rest k := by
  by_cases h : p.1 = k
  · simp [lookupSet, List.find?, h]
  · have hb : (p.1 == k) = false := by simp [h]
    simp [lookupSet, List.find?, h, hb]

theorem lookupSet_addDay (sd : List (String × List String)) (k' d k : String) :
    lookupSet (addDay sd k' d) k =
      if k = k' then some (addToSet ((lookupSet sd k).getD []) d)
      else lookupSet sd k := by
  induction sd with
  | nil =>
      by_cases h : k = k'
      · subst h
        simp [addDay, lookupSet_cons, lookupSet]
      · have h' : k' ≠ k := fun hk => h hk.symm
        simp [addDay, lookupSet_cons, lookupSet, h, h']
  | cons p rest ih =>
      by_cases h1 : p.1 = k'
      · rw [addDay, if_pos h1]
        by_cases h2 : k = k'
        · have hpk : p.1 = k := by rw [h1, h2]
          rw [lookupSet_cons, if_pos hpk, if_pos h2, lookupSet_cons, if_pos hpk]
          rfl
        · have hpk : p.1 ≠ k := fun hk => h2 (by rw [← hk, h1])
          rw [lookupSet_cons, if_neg hpk, if_neg h2, lookupSet_cons, if_neg hpk]
      · rw [addDay, if_neg h1]
        by_cases h3 : p.1 = k
        · have hk : k ≠ k' := fun hkk => h1 (by rw [h3, hkk])
          rw [lookupSet_cons, if_pos h3, if_neg hk, lookupSet_cons, if_pos h3]
        · rw [lookupSet_cons, if_neg h3, ih, lookupSet_cons, if_neg h3]

theorem mem_keys_addDay {sd : List (String × List String)} {k' d k : String} :
    k ∈ (addDay sd k' d).map (fun p => p.1) ↔
      k ∈ sd.map (fun p => p.1) ∨ k = k' := by
  induction sd with
  | nil => simp [addDay]
  | cons p rest ih =>
      by_cases h1 : p.1 = k'
      · rw [addDay, if_pos h1]
        simp [h1]
        tauto
      · rw [addDay, if_neg h1]
        simp at ih ⊢
        tauto

theorem lookupSet_fold_getD (g : Nat → Song) (es : List ListenEvent)
    (sd : List (String × List String)) (k : String) :
    (lookupSet (es.foldl (fun sd e => addDay sd (songKeyOf g e) (dayOf e)) sd) k).getD []
      = ((es.filter (fun e => songKeyOf g e == k)).map dayOf).foldl addToSet
          ((lookupSet sd k).getD []) := by
  induction es generalizing sd with
  | nil => rfl
  | cons e es ih =>
      rw [List.foldl_cons, List.filter_cons]
      by_cases h : songKeyOf g e = k
      · have hb : (songKeyOf g e == k) = true := by simp [h]
        rw [if_pos hb, List.map_cons, List.foldl_cons, ih, lookupSet_addDay,
          if_pos h.symm]
        rfl
      · have hb : (songKeyOf g e == k) = false := by simp [h]
        rw [if_neg (by simp [hb]), ih, lookupSet_addDay,
          if_neg (fun hk => h hk.symm)]

theorem mem_keys_fold (g : Nat → Song) (es : List ListenEvent)
    (sd : List (String × List String)) (k : String) :
    k ∈ (es.foldl (fun sd e => addDay sd (songKeyOf g e) (dayOf e)) sd).map (fun p => p.1)
      ↔ k ∈ sd.map (fun p => p.1) ∨ ∃ e ∈ es, songKeyOf g e = k := by
  induction es generalizing sd with
  | nil => simp
  | cons e es ih =>
      rw [List.foldl_cons, ih, mem_keys_addDay]
      simp only [List.mem_cons]
      constructor
      · rintro ((h | h) | h)
        · exact Or.inl h
        · exact Or.inr ⟨e, Or.inl rfl, h.symm⟩
        · rcases h with ⟨e', he', hk⟩
          exact Or.inr ⟨e', Or.inr he', hk⟩
      · rintro (h | ⟨e', he' | he', hk⟩)
        · exact Or.inl (Or.inl h)
        · exact Or.inl (Or.inr (he' ▸ hk.symm))
        · exact Or.inr ⟨e', he', hk⟩

/-! ### Claim C3 — everyday songs -/

/-- C3: a SongKey enters `everydaySongs` exactly when it occurs in the
event list and the number of distinct calendar days on which it was
played equals the number of distinct calendar days of the whole list; in
particular every entry is a SongKey seen in the list. -/
theorem claim_C3 (getSong : Nat → Song) (events : List ListenEvent)
    (hne : events ≠ []) :
    (∀ k, k ∈ everydayList getSong events ↔
      ((∃ e ∈ events, songKeyOf getSong e = k) ∧
        ((events.filter (fun e => songKeyOf getSong e == k)).map dayOf).toFinset.card
          = (events.map dayOf).toFinset.card)) ∧
    (∀ k ∈ everydayList getSong events, k ∈ events.map (songKeyOf getSong)) := by
  have hdays : (aggState getSong events).songDays =
      events.foldl (fun sd e => addDay sd (songKeyOf getSong e) (dayOf e)) [] :=
    foldl_stepEvent_songDays getSong events initState
  have hsize : ∀ k,
      setSizeOf (events.foldl (fun sd e => addDay sd (songKeyOf getSong e) (dayOf e)) []) k
        = ((events.filter (fun e => songKeyOf getSong e == k)).map dayOf).toFinset.card := by
    intro k
    rw [setSizeOf, lookupSet_fold_getD]
    exact foldl_addToSet_length _
  have hmain : ∀ k, k ∈ everydayList getSong events ↔
      ((∃ e ∈ events, songKeyOf getSong e = k) ∧
        ((events.filter (fun e => songKeyOf getSong e == k)).map dayOf).toFinset.card
          = (events.map dayOf).toFinset.card) := by
    intro k
    rw [everydayList, hdays, List.mem_filter, mem_keys_fold getSong events [] k]
    simp only [List.map_nil, List.not_mem_nil, false_or, beq_iff_eq]
    rw [hsize k, totalDays_card]
  refine ⟨hmain, fun k hk => ?_⟩
  rcases (hmain k).mp hk with ⟨⟨e, he, hek⟩, _⟩
  exact List.mem_map.mpr ⟨e, he, hek⟩

/-- Witness for C3 at the two-event input, instantiated at the SongKey of
song A (played on the only day present, hence an everyday song). -/
theorem claim_C3_witness :
    [evA, evB] ≠ ([] : List ListenEvent) ∧
    ("A - X" ∈ everydayList demoSongs [evA, evB] ↔
      ((∃ e ∈ [evA, evB], songKeyOf demoSongs e = "A - X") ∧
        (([evA, evB].filter (fun e => songKeyOf demoSongs e == "A - X")).map
            dayOf).toFinset.card
          = ([evA, evB].map dayOf).toFinset.card)) :=
  ⟨by decide, (claim_C3 demoSongs [evA, evB] (by decide)).1 "A - X"⟩

/-! ### Claim C4 — the Friday-night window -/

/-- C4: an event is counted in the Friday-night count and time
accumulators exactly when `isFridayNight` holds of its timestamp, which
for a parseable local timestamp means weekday Friday with hour ≥ 17 or
weekday Saturday with hour < 4; in particular Friday 16:xx is excluded,
Friday 17:xx included, Saturday 03:xx included and Saturday 04:xx
excluded. -/
theorem claim_C4 :
    (∀ (g : Nat → Song) (s : AggState) (e : ListenEvent),
      (stepEvent g s e).fridayNightSongs =
        (if isFridayNight e.timestamp
         then bumpAdd s.fridayNightSongs (songKeyOf g e) 1
         else s.fridayNightSongs) ∧
      (stepEvent g s e).fridayNightTime =
        (if isFridayNight e.timestamp
         then bumpAdd s.fridayNightTime (songKeyOf g e) (g e.song_id).duration_seconds
         else s.fridayNightTime)) ∧
    (∀ (day hour : Nat) (ds : String),
      isFridayNight (.valid day hour ds) = true ↔
        ((day = 5 ∧ 17 ≤ hour) ∨ (day = 6 ∧ hour < 4))) ∧
    (∀ ds : String,
      isFridayNight (.valid 5 16 ds) = false ∧
      isFridayNight (.valid 5 17 ds) = true ∧
      isFridayNight (.valid 6 3 ds) = true ∧
      isFridayNight (.valid 6 4 ds) = false) := by
  refine ⟨fun g s e => ⟨rfl, rfl⟩, fun day hour ds => ?_, fun ds => ⟨rfl, rfl, rfl, rfl⟩⟩
  simp [isFridayNight]

/-- Witness for C4: the window characterisation applied at Friday 17:00
of a concrete day string. -/
theorem claim_C4_witness :
    isFridayNight (.valid 5 17 "Fri Jan 05 2024") = true ↔
      ((5 = 5 ∧ 17 ≤ 17) ∨ (5 = 6 ∧ 17 < 4)) :=
  claim_C4.2.1 5 17 "Fri Jan 05 2024"

/-! ### Helper lemmas about key enumeration and truthiness -/

theorem bumpAdd_keys_all (m : ObjMap) (k : String) (v : Nat)
    (h : ∀ p ∈ m, p.1 = k) : ∀ p ∈ bumpAdd m k v, p.1 = k := by
  induction m with
  | nil => simp [bumpAdd]
  | cons q rest ih =>
      have hq := h q (by simp)
      intro p hp
      rw [bumpAdd, if_pos hq] at hp
      rcases List.mem_cons.mp hp with h1 | h1
      · rw [h1]; exact hq
      · exact h p (List.mem_cons_of_mem q h1)

theorem foldl_bumpAdd_ne_nil {α : Type} (f : α → String) (w : α → Nat)
    (es : List α) (m : ObjMap) (h : m ≠ []) :
    es.foldl (fun acc e => bumpAdd acc (f e) (w e)) m ≠ [] := by
  induction es generalizing m with
  | nil => exact h
  | cons e es ih => exact ih _ (bumpAdd_ne_nil _ _ _)

theorem foldl_bumpAdd_keys_all {α : Type} (f : α → String) (w : α → Nat)
    (es : List α) (m : ObjMap) (hm : ∀ p ∈ m, p.1 = "")
    (hf : ∀ e ∈ es, f e = "") :
    ∀ p ∈ es.foldl (fun acc e => bumpAdd acc (f e) (w e)) m, p.1 = "" := by
  induction es generalizing m with
  | nil => exact hm
  | cons e es ih =>
      have he : f e = "" := hf e (by simp)
      refine ih _ ?_ (fun x hx => hf x (List.mem_cons_of_mem e hx))
      have hall := bumpAdd_keys_all m "" (w e) hm
      show ∀ p ∈ bumpAdd m (f e) (w e), p.1 = ""
      rw [he]
      exact hall

theorem jsMaxKey_all_empty (m : ObjMap)
    (h : ∀ p ∈ m, p.1 = "") : jsMaxKey m = "" := by
  have hk : ∀ k ∈ m.map (fun p => p.1), k = "" := by
    intro k hk
    rcases List.mem_map.mp hk with ⟨p, hp, hpk⟩
    rw [← hpk]; exact h p hp
  rw [jsMaxKey]
  generalize m.map (fun p => p.1) = ks at hk
  induction ks with
  | nil => rfl
  | cons b ks ih =>
      have hb := hk b (by simp)
      rw [List.foldl_cons]
      have hstep : (if jsGe (vOf m "") (vOf m b) then "" else b) = "" := by
        rw [hb]; split <;> rfl
      rw [hstep]
      exact ih (fun x hx => hk x (List.mem_cons_of_mem b hx))

theorem strRow_eq_some {v q : String} {i : Insight}
    (h : strRow v q = some i) : i.question = q := by
  by_cases hv : v = "" <;> simp [strRow, hv] at h
  rw [← h]

theorem getGenres_question_head (tg : List String) :
    (getGenres tg).question.data.head? = some 'T' := by
  show ("Top " ++ toString tg.length ++ " " ++
      (if tg.length = 1 then "Genre" else "Genres")).data.head? = some 'T'
  rw [String.data_append, String.data_append, String.data_append]
  rfl

theorem getGenres_question_ne (tg : List String) (q : String)
    (hq : q.data.head? ≠ some 'T') : (getGenres tg).question ≠ q := by
  intro h
  exact hq (h ▸ getGenres_question_head tg)

/-! ### Claim C7 — top genres -/

theorem genreOrd_isTotal (m : ObjMap) : IsTotal String (genreOrd m) :=
  ⟨fun a b => Nat.le_total (vN m b) (vN m a)⟩

theorem genreOrd_isTrans (m : ObjMap) : IsTrans String (genreOrd m) :=
  ⟨fun _ _ _ hab hbc => Nat.le_trans hbc hab⟩

theorem getGenres_eq (tg : List String) :
    getGenres tg = ⟨"Top " ++ toString tg.length ++ " "
        ++ (if tg.length = 1 then "Genre" else "Genres"),
      String.intercalate ", " tg⟩ := rfl

/-- C7: `topGenres` takes the first three entries of the stable sort of
the genre keys by strictly descending play count: the sorted list is
pairwise non-increasing in count, a permutation of the genre keys, and
ties keep their first-occurrence order; all genres are returned when
fewer than three exist, and the emitted insight is labelled
"Top 1 Genre" for a single genre and "Top N Genres" otherwise, its
answer being the comma-joined genre list in the computed order. -/
theorem claim_C7 (m : ObjMap) :
    topGenres m = (List.insertionSort (genreOrd m) (m.map (fun p => p.1))).take 3 ∧
    List.Pairwise (fun a b => vN m b ≤ vN m a)
      (List.insertionSort (genreOrd m) (m.map (fun p => p.1))) ∧
    (List.insertionSort (genreOrd m) (m.map (fun p => p.1))).Perm
      (m.map (fun p => p.1)) ∧
    (∀ a b, [a, b].Sublist (m.map (fun p => p.1)) → vN m a = vN m b →
      [a, b].Sublist (List.insertionSort (genreOrd m) (m.map (fun p => p.1)))) ∧
    ((m.map (fun p => p.1)).length ≤ 3 →
      topGenres m = List.insertionSort (genreOrd m) (m.map (fun p => p.1))) ∧
    (topGenres m).length = min 3 (m.map (fun p => p.1)).length ∧
    (∀ a ∈ topGenres m, ∀ b ∈ m.map (fun p => p.1), b ∉ topGenres m →
      vN m b ≤ vN m a) ∧
    getGenres (topGenres m) =
      ⟨(if (topGenres m).length = 1 then "Top 1 Genre"
        else "Top " ++ toString (topGenres m).length ++ " Genres"),
       String.intercalate ", " (topGenres m)⟩ := by
  haveI := genreOrd_isTotal m
  haveI := genreOrd_isTrans m
  have hsorted : List.Sorted (genreOrd m)
      (List.insertionSort (genreOrd m) (m.map (fun p => p.1))) :=
    List.sorted_insertionSort (genreOrd m) (m.map (fun p => p.1))
  have hperm := List.perm_insertionSort (genreOrd m) (m.map (fun p => p.1))
  have hlen : (List.insertionSort (genreOrd m) (m.map (fun p => p.1))).length
      = (m.map (fun p => p.1)).length := hperm.length_eq
  refine ⟨rfl, hsorted, hperm, ?_, ?_, ?_, ?_, ?_⟩
  · intro a b hab hcnt
    exact List.pair_sublist_insertionSort (le_of_eq hcnt.symm) hab
  · intro h3
    rw [topGenres, List.take_of_length_le (by rw [hlen]; exact h3)]
  · rw [topGenres, List.length_take, hlen]
  · intro a ha b hb hnb
    have hbmem : b ∈ List.insertionSort (genreOrd m) (m.map (fun p => p.1)) :=
      (List.mem_insertionSort (genreOrd m)).mpr hb
    rw [← List.take_append_drop 3
      (List.insertionSort (genreOrd m) (m.map (fun p => p.1)))] at hbmem hsorted
    have hbdrop : b ∈ (List.insertionSort (genreOrd m)
        (m.map (fun p => p.1))).drop 3 := by
      rcases List.mem_append.mp hbmem with h | h
      · exact absurd h hnb
      · exact h
    exact (List.pairwise_append.mp hsorted).2.2 a ha b hbdrop
  · rw [getGenres_eq]
    by_cases h : (topGenres m).length = 1
    · rw [if_pos h, if_pos h, h]
      congr 1
    · rw [if_neg h, if_neg h]
      congr 1
      rw [String.append_assoc]
      congr 1

/-- Witness for C7: the tie-break conjunct applied to a concrete
accumulator with a tie, `{ "a": 1, "b": 3, "c": 2, "d": 3 }` (genres b
and d tie at 3 and keep their order; the top three are b, d, c). -/
theorem claim_C7_witness :
    topGenres [("a", 1), ("b", 3), ("c", 2), ("d", 3)] = ["b", "d", "c"] ∧
    ([("b" : String), "d"].Sublist
      (List.insertionSort (genreOrd [("a", 1), ("b", 3), ("c", 2), ("d", 3)])
        (([("a", 1), ("b", 3), ("c", 2), ("d", 3)] : ObjMap).map (fun p => p.1)))) :=
  ⟨by decide,
    (claim_C7 [("a", 1), ("b", 3), ("c", 2), ("d", 3)]).2.2.2.1 "b" "d"
      (by decide) (by decide)⟩

/-! ### Claim C10 — empty-string artists suppress the artist rows -/

/-- C10: when every event of a non-empty sequence resolves to a song
whose artist is the empty string, the artist accumulators are still
populated, yet the produced insight list contains no "Most listened
artist (count)" and no "Most listened artist (time)" row: the winning key
is the empty string, whose JS truthiness test fails. -/
theorem claim_C10 (getSong : Nat → Song) (events : List ListenEvent)
    (hne : events ≠ []) (hart : ∀ e ∈ events, (getSong e.song_id).artist = "") :
    (aggState getSong events).artistCount ≠ [] ∧
    (aggState getSong events).artistTime ≠ [] ∧
    processUserData getSong (some events) = some (buildResults getSong events) ∧
    (∀ i ∈ buildResults getSong events,
      i.question ≠ "Most listened artist (count)" ∧
      i.question ≠ "Most listened artist (time)") := by
  have hmac : jsMaxKey (aggState getSong events).artistCount = "" := by
    apply jsMaxKey_all_empty
    rw [aggState, foldl_stepEvent_artistCount]
    exact foldl_bumpAdd_keys_all _ _ events [] (by simp) hart
  have hmat : jsMaxKey (aggState getSong events).artistTime = "" := by
    apply jsMaxKey_all_empty
    rw [aggState, foldl_stepEvent_artistTime]
    exact foldl_bumpAdd_keys_all _ _ events [] (by simp) hart
  refine ⟨?_, ?_, ?_, ?_⟩
  · rw [aggState, foldl_stepEvent_artistCount]
    cases events with
    | nil => exact absurd rfl hne
    | cons e es =>
        rw [List.foldl_cons]
        exact foldl_bumpAdd_ne_nil _ _ es _ (bumpAdd_ne_nil _ _ _)
  · rw [aggState, foldl_stepEvent_artistTime]
    cases events with
    | nil => exact absurd rfl hne
    | cons e es =>
        rw [List.foldl_cons]
        exact foldl_bumpAdd_ne_nil _ _ es _ (bumpAdd_ne_nil _ _ _)
  · simp [processUserData, hne]
  · intro i hi
    rw [buildResults] at hi
    rcases List.mem_filterMap.mp hi with ⟨a, ha, hai⟩
    rw [id_eq] at hai
    subst hai
    simp only [List.mem_cons, List.not_mem_nil, or_false] at ha
    rcases ha with h | h | h | h | h | h | h | h | h
    · rw [strRow_eq_some h.symm]; exact ⟨by decide, by decide⟩
    · rw [strRow_eq_some h.symm]; exact ⟨by decide, by decide⟩
    · rw [hmac] at h
      simp [strRow] at h
    · rw [hmat] at h
      simp [strRow] at h
    · rw [strRow_eq_some h.symm]; exact ⟨by decide, by decide⟩
    · rw [strRow_eq_some h.symm]; exact ⟨by decide, by decide⟩
    · by_cases h0 : (aggState getSong events).streak.streakSongs.length = 0
      · rw [if_pos h0] at h; exact absurd h (by simp)
      · rw [if_neg h0] at h
        have : i = ⟨"Longest streak song",
            String.intercalate ", " (aggState getSong events).streak.streakSongs
              ++ " (length: " ++ toString (aggState getSong events).streak.maxStreak ++ ")"⟩ :=
          Option.some.inj h
        have hq : i.question = "Longest streak song" := by rw [this]
        rw [hq]; exact ⟨by decide, by decide⟩
    · rw [strRow_eq_some h.symm]; exact ⟨by decide, by decide⟩
    · have : i = getGenres (topGenres (aggState getSong events).genreCount) :=
        Option.some.inj h
      rw [this]
      exact ⟨getGenres_question_ne _ _ (by decide), getGenres_question_ne _ _ (by decide)⟩

/-- Witness for C10 at a one-event input whose song has an empty artist
name. -/
theorem claim_C10_witness :
    ([⟨(5 : Nat), mon⟩] ≠ ([] : List ListenEvent) ∧
      ∀ e ∈ [(⟨5, mon⟩ : ListenEvent)], ((fun _ => Song.mk "" "T" "g" 7) e.song_id).artist = "") ∧
    (∀ i ∈ buildResults (fun _ => Song.mk "" "T" "g" 7) [⟨5, mon⟩],
      i.question ≠ "Most listened artist (count)" ∧
      i.question ≠ "Most listened artist (time)") :=
  ⟨⟨by decide, by decide⟩,
    (claim_C10 (fun _ => Song.mk "" "T" "g" 7) [⟨5, mon⟩] (by decide) (by decide)).2.2.2⟩

/-- C1 amended: after aggregating a non-empty event sequence,
`maxStreak` is the length of the longest maximal run of consecutive
same-SongKey events, and the streak leaderboard contains a SongKey if
and only if that key owns a maximal run of that length — when a new
streak strictly exceeds the maximum the leaderboard is reset to that
song and when it equals the maximum the song is appended (see
`streakStep`); but the leaderboard is a list, not a set, and a key
reaching the maximal length in several separate runs is entered once
per such run (see the counterexample). -/
theorem claim_C1 (getSong : Nat → Song) (events : List ListenEvent)
    (hne : events ≠ []) :
    (aggState getSong events).streak.maxStreak
        = maxRun (events.map (songKeyOf getSong)) ∧
    (∀ x, x ∈ (aggState getSong events).streak.streakSongs ↔
      (x, maxRun (events.map (songKeyOf getSong)))
        ∈ runsRev (events.map (songKeyOf getSong))) := by
  have hstreak : (aggState getSong events).streak
      = (events.map (songKeyOf getSong)).foldl streakStep initStreak := by
    rw [aggState, foldl_stepEvent_streak, List.foldl_map]
    rfl
  have hinv : StreakInv ((events.map (songKeyOf getSong)).foldl streakStep initStreak)
      (runsRev (events.map (songKeyOf getSong))) := by
    rw [runsRev]
    refine streakInv_fold _ ?_ initStreak [] (by rw [StreakInv])
    intro k hk
    rcases List.mem_map.mp hk with ⟨e, _, hke⟩
    rw [← hke]
    exact songKey_ne_empty _
  rw [hstreak, maxRun]
  rcases hbs : runsRev (events.map (songKeyOf getSong)) with _ | ⟨⟨k', n⟩, rest⟩
  · rw [hbs] at hinv
    rw [StreakInv] at hinv
    rw [hinv]
    refine ⟨rfl, fun x => ?_⟩
    rw [show initStreak.streakSongs = ([] : List String) from rfl]
    simp
  · rw [hbs] at hinv
    obtain ⟨_, _, _, _, hmax, hmem⟩ := hinv
    exact ⟨hmax, hmem⟩

/-- Witness for C1 at the tied input `[A, A, B, B]`, instantiated at the
SongKey of song B. -/
theorem claim_C1_witness :
    [evA, evA, evB, evB] ≠ ([] : List ListenEvent) ∧
    (aggState demoSongs [evA, evA, evB, evB]).streak.maxStreak
        = maxRun ([evA, evA, evB, evB].map (songKeyOf demoSongs)) ∧
    ("B - Y" ∈ (aggState demoSongs [evA, evA, evB, evB]).streak.streakSongs ↔
      ("B - Y", maxRun ([evA, evA, evB, evB].map (songKeyOf demoSongs)))
        ∈ runsRev ([evA, evA, evB, evB].map (songKeyOf demoSongs))) :=
  ⟨by decide, (claim_C1 demoSongs [evA, evA, evB, evB] (by decide)).1,
    (claim_C1 demoSongs [evA, evA, evB, evB] (by decide)).2 "B - Y"⟩

/-! ### Claim C5 — first-key tie-break of the max-reductions -/

theorem vOf_eq_some_of_mem {m : ObjMap} {k : String}
    (h : k ∈ m.map (fun p => p.1)) : vOf m k = some (vN m k) := by
  rcases hf : vOf m k with _ | v
  · exfalso
    rw [vOf, Option.map_eq_none'] at hf
    rcases List.mem_map.mp h with ⟨p, hp, hpk⟩
    have hnone := List.find?_eq_none.mp hf p hp
    simp [hpk] at hnone
  · rw [vN, hf]; rfl

theorem vOf_eq_none_of_not_mem {m : ObjMap} {k : String}
    (h : k ∉ m.map (fun p => p.1)) : vOf m k = none := by
  rw [vOf, Option.map_eq_none']
  refine List.find?_eq_none.mpr (fun p hp => ?_)
  simp only [beq_iff_eq]
  intro hpk
  exact h (List.mem_map.mpr ⟨p, hp, hpk⟩)

theorem foldMax_decomp (v : String → Nat) :
    ∀ (ks : List String) (a : String),
      ∃ l₁ l₂, a :: ks = l₁ ++ foldMax v a ks :: l₂ ∧
        (∀ x ∈ l₁, v x < v (foldMax v a ks)) ∧
        (∀ x ∈ l₂, v x ≤ v (foldMax v a ks)) := by
  intro ks
  induction ks with
  | nil =>
      intro a
      exact ⟨[], [], rfl, by simp, by simp⟩
  | cons b ks ih =>
      intro a
      have hstep : foldMax v a (b :: ks) = foldMax v (if v b ≤ v a then a else b) ks := rfl
      by_cases hba : v b ≤ v a
      · rw [if_pos hba] at hstep
        rcases ih a with ⟨l₁, l₂, heq, h₁, h₂⟩
        rw [hstep]
        cases l₁ with
        | nil =>
            rw [List.nil_append] at heq
            injection heq with hr hl₂
            refine ⟨[], b :: ks, ?_, by simp, ?_⟩
            · rw [List.nil_append, ← hr]
            · intro x hx
              rcases List.mem_cons.mp hx with h | h
              · rw [h, ← hr]; exact hba
              · exact h₂ x (hl₂ ▸ h)
        | cons c l₁ =>
            rw [List.cons_append] at heq
            injection heq with hc hks
            refine ⟨a :: b :: l₁, l₂, ?_, ?_, h₂⟩
            · rw [List.cons_append, List.cons_append, ← hks]
            · intro x hx
              have hcr : v c < v (foldMax v a ks) := h₁ c (by simp)
              have har : v a < v (foldMax v a ks) := hc ▸ hcr
              rcases List.mem_cons.mp hx with h | h
              · rw [h]; exact har
              · rcases List.mem_cons.mp h with h' | h'
                · rw [h']; exact lt_of_le_of_lt hba har
                · exact h₁ x (List.mem_cons_of_mem c h')
      · rw [if_neg hba] at hstep
        have hab : v a < v b := Nat.lt_of_not_le hba
        rcases ih b with ⟨l₁, l₂, heq, h₁, h₂⟩
        rw [hstep]
        cases l₁ with
        | nil =>
            rw [List.nil_append] at heq
            injection heq with hr hl₂
            refine ⟨[a], ks, ?_, ?_, ?_⟩
            · subst hl₂
              rw [← hr]
              rfl
            · intro x hx
              rcases List.mem_singleton.mp hx with h
              rw [h, ← hr]; exact hab
            · intro x hx
              exact h₂ x (hl₂ ▸ hx)
        | cons c l₁ =>
            rw [List.cons_append] at heq
            injection heq with hc hks
            refine ⟨a :: b :: l₁, l₂, ?_, ?_, h₂⟩
            · rw [List.cons_append, List.cons_append, ← hks]
            · intro x hx
              have hbr : v b < v (foldMax v b ks) := hc ▸ h₁ c (by simp)
              rcases List.mem_cons.mp hx with h | h
              · rw [h]; exact lt_trans hab hbr
              · rcases List.mem_cons.mp h with h' | h'
                · rw [h']; exact hbr
                · exact h₁ x (List.mem_cons_of_mem c h')

theorem jsFold_eq_foldMax (m : ObjMap) (ks : List String) (a : String)
    (ha : a ∈ m.map (fun p => p.1)) (hks : ∀ k ∈ ks, k ∈ m.map (fun p => p.1)) :
    ks.foldl (fun x y => if jsGe (vOf m x) (vOf m y) then x else y) a
      = foldMax (vN m) a ks := by
  induction ks generalizing a with
  | nil => rfl
  | cons b ks ih =>
      have hb : b ∈ m.map (fun p => p.1) := hks b (by simp)
      have hstep : (if jsGe (vOf m a) (vOf m b) then a else b)
          = (if vN m b ≤ vN m a then a else b) := by
        rw [vOf_eq_some_of_mem ha, vOf_eq_some_of_mem hb]
        by_cases hc : vN m b ≤ vN m a <;> simp [jsGe, hc]
      have ha' : (if vN m b ≤ vN m a then a else b) ∈ m.map (fun p => p.1) := by
        split
        · exact ha
        · exact hb
      rw [List.foldl_cons, hstep, foldMax, List.foldl_cons]
      exact ih _ ha' (fun k hk => hks k (List.mem_cons_of_mem b hk))

/-- C5 amended: for every non-empty accumulator map none of whose keys is
the empty string, the JS max-reduction returns the first key in
enumeration order among those sharing the maximum accumulated value
(every earlier key has a strictly smaller value, every later key no
larger a value).  When the empty string is itself a key the reduce seed
collides with it and the result can fail to be first in enumeration
order (see the counterexample). -/
theorem claim_C5 (m : ObjMap) (hne : m ≠ [])
    (hnk : "" ∉ m.map (fun p => p.1)) :
    ∃ l₁ l₂, m.map (fun p => p.1) = l₁ ++ jsMaxKey m :: l₂ ∧
      (∀ k ∈ l₁, vN m k < vN m (jsMaxKey m)) ∧
      (∀ k ∈ l₂, vN m k ≤ vN m (jsMaxKey m)) := by
  rcases hm : m.map (fun p => p.1) with _ | ⟨k0, kr⟩
  · exact absurd (List.map_eq_nil_iff.mp hm) hne
  · have hk0 : k0 ∈ m.map (fun p => p.1) := by rw [hm]; simp
    have hkr : ∀ k ∈ kr, k ∈ m.map (fun p => p.1) := by
      intro k hk; rw [hm]; exact List.mem_cons_of_mem _ hk
    have h0 : jsMaxKey m = foldMax (vN m) k0 kr := by
      rw [jsMaxKey, hm, List.foldl_cons]
      have hseed : (if jsGe (vOf m "") (vOf m k0) then "" else k0) = k0 := by
        rw [vOf_eq_none_of_not_mem hnk]; rfl
      rw [hseed]
      exact jsFold_eq_foldMax m kr k0 hk0 hkr
    rcases foldMax_decomp (vN m) kr k0 with ⟨l₁, l₂, heq, h₁, h₂⟩
    rw [h0, hm]
    exact ⟨l₁, l₂, heq, h₁, h₂⟩

/-- Witness for C5 at the accumulator of the specification example,
`{ "X": 2, "Y": 2 }`: the reduction returns `"X"`, the first of the two
tied keys. -/
theorem claim_C5_witness :
    (([("X", 2), ("Y", 2)] : ObjMap) ≠ [] ∧
      "" ∉ ([("X", 2), ("Y", 2)] : ObjMap).map (fun p => p.1)) ∧
    jsMaxKey [("X", 2), ("Y", 2)] = "X" ∧
    (∃ l₁ l₂,
      ([("X", 2), ("Y", 2)] : ObjMap).map (fun p => p.1)
        = l₁ ++ jsMaxKey [("X", 2), ("Y", 2)] :: l₂ ∧
      (∀ k ∈ l₁, vN [("X", 2), ("Y", 2)] k
        < vN [("X", 2), ("Y", 2)] (jsMaxKey [("X", 2), ("Y", 2)])) ∧
      (∀ k ∈ l₂, vN [("X", 2), ("Y", 2)] k
        ≤ vN [("X", 2), ("Y", 2)] (jsMaxKey [("X", 2), ("Y", 2)]))) :=
  ⟨⟨by decide, by decide⟩, by decide,
    claim_C5 [("X", 2), ("Y", 2)] (by decide) (by decide)⟩

/-- C5 counterexample: with the accumulator `{ "X": 2, "": 2 }` (an empty
artist name is a legal key) both keys share the maximum and `"X"` is
first in enumeration order, yet the reduction returns `""`: the reduce
seed `""` collides with the stored key and wins every comparison it
draws. -/
theorem claim_C5_cex :
    (([("X", 2), ("", 2)] : ObjMap).map (fun p => p.1)) = ["X", ""] ∧
    vN [("X", 2), ("", 2)] "X" = 2 ∧
    vN [("X", 2), ("", 2)] "" = 2 ∧
    jsMaxKey [("X", 2), ("", 2)] = "" ∧
    ("" : String) ≠ "X" := by decide

end MusicData
